import Mathlib

/-!
Shallow embedding of `main.py`: a converter that reads a uv.lock-style
manifest from standard input and emits Homebrew Formula resource blocks on
standard output.

Modelling conventions:
* Standard input is modelled as the list of its lines, with the trailing
  newline already stripped from each (the reader strips it with
  `rstrip("\n")`), so a line never contains a newline character.
* Standard output is modelled as the list of blocks passed to `print`;
  the text written is their concatenation.
* Uncaught Python exceptions (`ValueError`, `EOFError`) are modelled by an
  `Except Err` result, with one `Err` constructor per raise site carrying
  the data that the Python message interpolates.
-/

/-! ### The four regexes of `main.py`, specialized to newline-free lines -/

/-- The characters matched by Python's `\\s` on `str` (the characters with
the Unicode `White_Space` property). -/
def pySpaceChars : List Char :=
  [' ', '\t', '\n', '\r', '\x0b', '\x0c', '\x1c', '\x1d', '\x1e', '\x1f',
   '\x85', '\xa0', Char.ofNat 0x1680, Char.ofNat 0x2000, Char.ofNat 0x2001,
   Char.ofNat 0x2002, Char.ofNat 0x2003, Char.ofNat 0x2004, Char.ofNat 0x2005,
   Char.ofNat 0x2006, Char.ofNat 0x2007, Char.ofNat 0x2008, Char.ofNat 0x2009,
   Char.ofNat 0x200a, Char.ofNat 0x2028, Char.ofNat 0x2029, Char.ofNat 0x202f,
   Char.ofNat 0x205f, Char.ofNat 0x3000]

def isPySpace (c : Char) : Bool := pySpaceChars.contains c

/-- `whitespace = re.compile(r"^\s*$")`: the whole line is whitespace. -/
def isWhitespaceLine (s : String) : Bool := s.data.all isPySpace

/-- The character class `[a-z]`. -/
def lowerAZ (c : Char) : Bool := 'a' ≤ c && c ≤ 'z'

/-- The character class `[a-z-]`. -/
def keyChar (c : Char) : Bool := lowerAZ c || c == '-'

/-- Does the list start with `'='` followed by `' '`? -/
def eqSpAfter : List Char → Bool
  | c1 :: c2 :: _ => c1 == '=' && c2 == ' '
  | _ => false

/-- After the leading `[a-z]` of the `property` pattern: consume the rest of
the `[a-z-]*` run, then require the literal `" = "`.  The run is forced: a
space is not a `[a-z-]` character, so regex backtracking cannot move the
split point, and the trailing `(.*)` matches the rest of any newline-free
line.  -/
def propertyTail : List Char → Bool
  | [] => false
  | c :: cs => if keyChar c then propertyTail cs else (c == ' ' && eqSpAfter cs)

/-- `property = re.compile(r"^[a-z][a-z-]* = (.*)")`, as used via
`property.match(line)` in Boolean position. -/
def matchesProperty (s : String) : Bool :=
  match s.data with
  | [] => false
  | c :: cs => lowerAZ c && propertyTail cs

/-- Strip an expected literal prefix. -/
def dropLit : List Char → List Char → Option (List Char)
  | [], l => some l
  | _ :: _, [] => none
  | p :: ps, c :: cs => if c == p then dropLit ps cs else none

def namePrefix : List Char := "name = \"".data

/-- `name_property = re.compile(r'^name = "(.*)"$')`.  On a newline-free
line this matches iff the line starts with `name = "` and ends with a
quote that is not the opening one; the greedy group 1 is everything
between the opening quote and the final one. -/
def nameMatch (s : String) : Option String :=
  match dropLit namePrefix s.data with
  | none => none
  | some rest =>
    match rest.getLast? with
    | none => none
    | some c => if c = '"' then some ⟨rest.dropLast⟩ else none

def rbraceChar : Char := Char.ofNat 125

def notQuote (c : Char) : Bool := !(c == '"')

def sdistLit1 : String := "sdist = \x7b url = \""

def sdistLit2 : String := "\", hash = \"sha256:"

def sdistLit3 : String := "\", "

/-- `sdist_property = re.compile(r'^sdist = { url = "([^"]*)", hash = "sha256:([^"]*)", .*}')`,
via `match` (prefix match, not end-anchored).  Both groups are `[^"]*`
directly followed by a literal quote, so they are forced to end at the next
quote and the whole match is deterministic: strip the literal pieces, take
each group up to the next quote, and finally require some closing brace in
the remainder for `.*}` (on a newline-free line `.*` is unconstrained). -/
def sdistMatch (s : String) : Option (String × String) :=
  match dropLit sdistLit1.data s.data with
  | none => none
  | some r1 =>
    let u := r1.takeWhile notQuote
    let r2 := r1.dropWhile notQuote
    match dropLit sdistLit2.data r2 with
    | none => none
    | some r3 =>
      let h := r3.takeWhile notQuote
      let r4 := r3.dropWhile notQuote
      match dropLit sdistLit3.data r4 with
      | none => none
      | some r5 => if r5.any (fun c => c == rbraceChar) then some (⟨u⟩, ⟨h⟩) else none

/-- `match.group(1).replace("-", "_")` in `parse_name`. -/
def underscoreName (s : String) : String :=
  ⟨s.data.map (fun c => if c == '-' then '_' else c)⟩

/-- The `print(f"""  resource ...""")` template of
`parse_dependency_details`: the four-line resource block (whose last line is
`  end`), plus the extra newline appended by `print`, i.e. a blank separator
line. -/
def renderBlock (name url hash : String) : String :=
  "  resource \"" ++ name ++ "\" do\n    url \"" ++ url ++ "\"\n    sha256 \""
    ++ hash ++ "\"\n  end\n" ++ "\n"

/-! ### The `StdinReader` -/

/-- The state of a `StdinReader`: `stdin` is the list of lines not yet read
from the underlying stream, `buffer` the one-line lookahead (`none` once EOF
has been reached), and `current_line` the counter incremented each time a
line is read into the buffer (so it holds the 1-based position of the
buffered line). -/
structure StdinReader where
  stdin : List String
  buffer : Option String
  current_line : Nat
  deriving DecidableEq, Repr

/-- `update_buffer`: read one more line from stdin into the buffer;
at EOF the buffer becomes `none` and the counter is not incremented. -/
def update_buffer (r : StdinReader) : StdinReader :=
  match r.stdin with
  | [] => { r with buffer := none }
  | l :: ls => { stdin := ls, buffer := some l, current_line := r.current_line + 1 }

/-- `StdinReader.__init__`: counter starts at 0, then the buffer is filled. -/
def initReader (input : List String) : StdinReader :=
  update_buffer { stdin := input, buffer := none, current_line := 0 }

def StdinReader.has_next (r : StdinReader) : Bool := r.buffer.isSome

/-- `StdinReader.line()`. -/
def StdinReader.line (r : StdinReader) : Nat := r.current_line

/-- One error value per uncaught-exception site of `main.py`. -/
inductive Err where
  /-- `EOFError("End of input reached")` raised by `next()`. -/
  | eofNext
  /-- `EOFError("Cannot peek past EOF.")` raised by `peek()`. -/
  | eofPeek
  /-- `ValueError("Unexpected while parsing name.")` in `parse_name`. -/
  | nameUnexpectedEof
  /-- `ValueError(f"Expected property, found '{line}' at line {reader.line}.")`
  in `parse_name`.  Note that the interpolated `reader.line` is the bound
  method object, not a call of it, so the rendered message contains the
  method's repr and no line number; the constructor therefore carries only
  the offending line's text. -/
  | expectedProperty (line : String)
  /-- `ValueError("Unexpected EOF while parsing sdist.")` in `parse_sdist`. -/
  | sdistUnexpectedEof
  /-- `ValueError(f"Expected package header at line {reader.line()}, found '{header}'.")`
  in `parse_dependency`, carrying the offending line and the value of
  `reader.line()` at the raise site (which is taken after the offending line
  has been consumed). -/
  | expectedHeader (line : String) (reportedLine : Nat)
  deriving DecidableEq, Repr

/-- `StdinReader.next()`: return the buffered line and advance. -/
def StdinReader.next (r : StdinReader) : Except Err (String × StdinReader) :=
  match r.buffer with
  | none => .error .eofNext
  | some l => .ok (l, update_buffer r)

/-- `StdinReader.peek()`. -/
def StdinReader.peek (r : StdinReader) : Except Err String :=
  match r.buffer with
  | none => .error .eofPeek
  | some l => .ok l

/-- The number of lines the reader still holds (buffered line included);
a measure for termination of the consuming loops. -/
def StdinReader.size (r : StdinReader) : Nat :=
  (if r.buffer.isSome then 1 else 0) + r.stdin.length

theorem update_buffer_size_lt (r : StdinReader) (l : String)
    (h : r.buffer = some l) : (update_buffer r).size < r.size := by
  rcases r with ⟨stdin, buffer, c⟩
  cases stdin <;> simp_all [update_buffer, StdinReader.size]

theorem update_buffer_size_le (r : StdinReader) :
    (update_buffer r).size ≤ r.size := by
  rcases r with ⟨stdin, buffer, c⟩
  cases stdin <;> cases buffer <;> simp [update_buffer, StdinReader.size] <;> omega

/-! ### The manifest walker -/

/-- `skip_initial_fields`: consume leading whitespace / generic property
lines, stopping (without consuming) at the first other line or at EOF. -/
def skip_initial_fields (r : StdinReader) : StdinReader :=
  match hb : r.buffer with
  | none => r
  | some line =>
    if isWhitespaceLine line || matchesProperty line then
      skip_initial_fields (update_buffer r)
    else r
termination_by r.size
decreasing_by exact update_buffer_size_lt r line hb

/-- `parse_name`: consume lines until one matches `name_property`; every
consumed line must match `property`, otherwise fail.  Returns the captured
name with hyphens replaced by underscores. -/
def parse_name (r : StdinReader) : Except Err (String × StdinReader) :=
  match hb : r.buffer with
  | none => .error .nameUnexpectedEof
  | some line =>
    if matchesProperty line then
      match nameMatch line with
      | some v => .ok (underscoreName v, update_buffer r)
      | none => parse_name (update_buffer r)
    else .error (.expectedProperty line)
termination_by r.size
decreasing_by exact update_buffer_size_lt r line hb

/-- `parse_sdist`: scan forward for a line matching `sdist_property`,
stopping without consuming at a `[[package]]` header (no descriptor), and
failing at EOF. -/
def parse_sdist (r : StdinReader) :
    Except Err (Option (String × String) × StdinReader) :=
  match hb : r.buffer with
  | none => .error .sdistUnexpectedEof
  | some line =>
    if line = "[[package]]" then .ok (none, r)
    else
      match sdistMatch line with
      | some uh => .ok (some uh, update_buffer r)
      | none => parse_sdist (update_buffer r)
termination_by r.size
decreasing_by exact update_buffer_size_lt r line hb

/-- The `while reader.has_next() and (not reader.peek() == "[[package]]")`
loop at the end of `parse_dependency_details`. -/
def skip_rest (r : StdinReader) : StdinReader :=
  match hb : r.buffer with
  | none => r
  | some line => if line = "[[package]]" then r else skip_rest (update_buffer r)
termination_by r.size
decreasing_by exact update_buffer_size_lt r line hb

/-- `parse_dependency_details`: name, then sdist; if a descriptor was found,
print the block and skip the record's tail (on the no-descriptor path the
function returns before the skip loop, which is harmless because
`parse_sdist` returned at an unconsumed `[[package]]` header). -/
def parse_dependency_details (r : StdinReader) :
    Except Err (Option String × StdinReader) :=
  match parse_name r with
  | .error e => .error e
  | .ok (name, r1) =>
    match parse_sdist r1 with
    | .error e => .error e
    | .ok (none, r2) => .ok (none, r2)
    | .ok (some (url, hash), r2) =>
      .ok (some (renderBlock name url hash), skip_rest r2)

/-- `parse_dependency`: consume the record header, which must be exactly
`[[package]]`; on failure the reported line number is `reader.line()` taken
after the consumption. -/
def parse_dependency (r : StdinReader) :
    Except Err (Option String × StdinReader) :=
  match r.buffer with
  | none => .error .eofNext
  | some header =>
    let r1 := update_buffer r
    if header = "[[package]]" then parse_dependency_details r1
    else .error (.expectedHeader header r1.line)

theorem parse_name_size (r : StdinReader) (v : String) (r' : StdinReader)
    (h : parse_name r = .ok (v, r')) : r'.size ≤ r.size := by
  rw [parse_name] at h
  split at h
  · simp at h
  · next line hb =>
    split at h
    · split at h
      · cases h
        exact update_buffer_size_le r
      · have hlt := update_buffer_size_lt r line hb
        have hrec := parse_name_size (update_buffer r) _ _ h
        omega
    · simp at h
termination_by r.size
decreasing_by exact update_buffer_size_lt r _ (by assumption)

theorem parse_sdist_size (r : StdinReader) (o : Option (String × String))
    (r' : StdinReader) (h : parse_sdist r = .ok (o, r')) : r'.size ≤ r.size := by
  rw [parse_sdist] at h
  split at h
  · simp at h
  · next line hb =>
    split at h
    · cases h
      exact le_refl _
    · split at h
      · cases h
        exact update_buffer_size_le r
      · have hlt := update_buffer_size_lt r line hb
        have hrec := parse_sdist_size (update_buffer r) _ _ h
        omega
termination_by r.size
decreasing_by exact update_buffer_size_lt r _ (by assumption)

theorem skip_rest_size (r : StdinReader) : (skip_rest r).size ≤ r.size := by
  rw [skip_rest]
  split
  · exact le_refl _
  · next line hb =>
    split
    · exact le_refl _
    · have hlt := update_buffer_size_lt r line hb
      have hrec := skip_rest_size (update_buffer r)
      omega
termination_by r.size
decreasing_by exact update_buffer_size_lt r _ (by assumption)

theorem parse_dependency_details_size (r : StdinReader) (o : Option String)
    (r' : StdinReader) (h : parse_dependency_details r = .ok (o, r')) :
    r'.size ≤ r.size := by
  rw [parse_dependency_details] at h
  split at h
  · simp at h
  · next name r1 hn =>
    split at h
    · simp at h
    · next r2 hs =>
      cases h
      have h1 := parse_name_size r _ _ hn
      have h2 := parse_sdist_size r1 _ _ hs
      omega
    · next url hash r2 hs =>
      cases h
      have h1 := parse_name_size r _ _ hn
      have h2 := parse_sdist_size r1 _ _ hs
      have h3 := skip_rest_size r2
      omega

theorem parse_dependency_size (r : StdinReader) (l : String) (o : Option String)
    (r' : StdinReader) (hb : r.buffer = some l)
    (h : parse_dependency r = .ok (o, r')) : r'.size < r.size := by
  rw [parse_dependency, hb] at h
  by_cases hhdr : l = "[[package]]"
  · simp only [hhdr, if_true] at h
    have h1 := parse_dependency_details_size (update_buffer r) o r' h
    have h2 := update_buffer_size_lt r l hb
    omega
  · simp only [hhdr, if_false] at h
    exact absurd h (by simp)

/-- The `while reader.has_next(): parse_dependency(reader)` loop of
`read_lockfile`, collecting the printed blocks in order. -/
def read_loop (r : StdinReader) : Except Err (List String) :=
  match hb : r.buffer with
  | none => .ok []
  | some _ =>
    match hpd : parse_dependency r with
    | .error e => .error e
    | .ok (out, r1) =>
      match read_loop r1 with
      | .error e => .error e
      | .ok blocks =>
        .ok (match out with | none => blocks | some b => b :: blocks)
termination_by r.size
decreasing_by exact parse_dependency_size r _ out r1 hb hpd

/-- `read_lockfile` applied to a fresh `StdinReader` over the given input
lines: the whole program (`main` without the CLI glue).  The result is the
list of blocks printed to standard output, or the uncaught exception. -/
def read_lockfile (input : List String) : Except Err (List String) :=
  read_loop (skip_initial_fields (initReader input))

example : matchesProperty "version = 1" = true := by decide
example : matchesProperty "a =" = false := by decide
example : matchesProperty "[[package]]" = false := by decide
example : nameMatch "name = \"foo-bar\"" = some "foo-bar" := by decide
example :
    sdistMatch "sdist = \x7b url = \"u\", hash = \"sha256:h\", size = 10 \x7d"
      = some ("u", "h") := by decide
example :
    sdistMatch "sdist = \x7b url = \"u\", hash = \"sha256:h\" \x7d" = none := by
  decide
example : read_lockfile [] = .ok [] := by
  simp [read_lockfile, initReader, update_buffer, skip_initial_fields, read_loop]

/-! ### Well-formed package records and the lines they are made of -/

/-- The line `name = "<v>"`. -/
def nameLine (v : String) : String := ⟨namePrefix ++ (v.data ++ ['"'])⟩

/-- The line `sdist = { url = "<u>", hash = "sha256:<h>", <extra>}`:
a source-distribution property in the sha256-hash form accepted by
`sdist_property`, with an arbitrary remainder after the second comma. -/
def sdistLine (u h extra : String) : String :=
  ⟨sdistLit1.data ++ (u.data ++ (sdistLit2.data ++ (h.data ++
    (sdistLit3.data ++ (extra.data ++ [rbraceChar])))))⟩

/-- The line `sdist = { url = "<u>", hash = "sha256:<h>" }`: the inline
table ends right after the hash field, with no further field. -/
def shortSdistLine (u h : String) : String :=
  ⟨sdistLit1.data ++ (u.data ++ (sdistLit2.data ++ (h.data ++
    ('"' :: ' ' :: [rbraceChar]))))⟩

/-- A well-formed package record as the spec describes it: a `[[package]]`
header, property lines, the `name` property, more lines, an `sdist`
property in the sha256-hash form, and trailing lines. -/
structure GoodRecord where
  props : List String
  name : String
  mid : List String
  url : String
  hash : String
  extra : String
  tail : List String

/-- The lines of a well-formed record, in order. -/
def recordLines (g : GoodRecord) : List String :=
  "[[package]]" ::
    (g.props ++ nameLine g.name ::
      (g.mid ++ sdistLine g.url g.hash g.extra :: g.tail))

/-- The resource block the program prints for a well-formed record. -/
def blockOf (g : GoodRecord) : String :=
  renderBlock (underscoreName g.name) g.url g.hash

/-- Side conditions making a `GoodRecord` genuinely well-formed: the lines
before `name` are generic properties (and not themselves `name` lines), the
lines between `name` and `sdist` are neither headers nor sha256-form sdist
lines, the tail lines are not headers, and url/hash contain no quote (so
the `[^"]*` groups can take them whole). -/
def WFRecord (g : GoodRecord) : Prop :=
  (∀ l ∈ g.props, matchesProperty l = true ∧ nameMatch l = none) ∧
  (∀ l ∈ g.mid, l ≠ "[[package]]" ∧ sdistMatch l = none) ∧
  (∀ l ∈ g.tail, l ≠ "[[package]]") ∧
  '"' ∉ g.url.data ∧ '"' ∉ g.hash.data

instance (g : GoodRecord) : Decidable (WFRecord g) := by
  unfold WFRecord; infer_instance

/-- `Sees r ls`: the reader is about to deliver exactly the lines `ls`
(buffered line first).  The line counter is unconstrained. -/
def Sees (r : StdinReader) (ls : List String) : Prop :=
  r.buffer = ls.head? ∧ r.stdin = ls.tail

theorem sees_init (input : List String) : Sees (initReader input) input := by
  cases input <;> simp [initReader, update_buffer, Sees]

theorem sees_head {r : StdinReader} {l : String} {ls : List String}
    (h : Sees r (l :: ls)) : r.buffer = some l := by
  simpa using h.1

theorem sees_nil_buffer {r : StdinReader} (h : Sees r []) : r.buffer = none := by
  simpa using h.1

theorem sees_update {r : StdinReader} {l : String} {ls : List String}
    (h : Sees r (l :: ls)) : Sees (update_buffer r) ls := by
  obtain ⟨h1, h2⟩ := h
  rcases r with ⟨stdin, buffer, c⟩
  cases ls <;> simp_all [update_buffer, Sees]

/-! ### Facts about the matchers on the constructed lines -/

theorem dropLit_append (p l : List Char) : dropLit p (p ++ l) = some l := by
  induction p with
  | nil => simp [dropLit]
  | cons c cs ih => simp [dropLit, ih]

theorem matchesProperty_nameLine (v : String) :
    matchesProperty (nameLine v) = true := by
  have e : (nameLine v).data =
      'n' :: 'a' :: 'm' :: 'e' :: ' ' :: '=' :: ' ' :: '"' :: (v.data ++ ['"']) := rfl
  have ka : keyChar 'a' = true := by decide
  have km : keyChar 'm' = true := by decide
  have ke : keyChar 'e' = true := by decide
  have ksp : keyChar ' ' = false := by decide
  have ln : lowerAZ 'n' = true := by decide
  simp [matchesProperty, e, propertyTail, eqSpAfter, ka, km, ke, ksp, ln]

theorem nameMatch_nameLine (v : String) : nameMatch (nameLine v) = some v := by
  have e : (nameLine v).data = namePrefix ++ (v.data ++ ['"']) := rfl
  simp [nameMatch, e, dropLit_append, List.getLast?_concat, List.dropLast_concat]

theorem takeWhile_notQuote (u : List Char) (hq : '"' ∉ u) (t : List Char) :
    (u ++ '"' :: t).takeWhile notQuote = u := by
  induction u with
  | nil => simp [List.takeWhile_cons, notQuote]
  | cons c cs ih =>
    simp only [List.mem_cons, not_or] at hq
    have hc : notQuote c = true := by
      simp [notQuote]
      exact fun hce => hq.1 hce.symm
    simp [List.takeWhile_cons, hc, ih hq.2]

theorem dropWhile_notQuote (u : List Char) (hq : '"' ∉ u) (t : List Char) :
    (u ++ '"' :: t).dropWhile notQuote = '"' :: t := by
  induction u with
  | nil => simp [List.dropWhile_cons, notQuote]
  | cons c cs ih =>
    simp only [List.mem_cons, not_or] at hq
    have hc : notQuote c = true := by
      simp [notQuote]
      exact fun hce => hq.1 hce.symm
    simp [List.dropWhile_cons, hc, ih hq.2]

theorem sdistMatch_sdistLine (u h extra : String)
    (hu : '"' ∉ u.data) (hh : '"' ∉ h.data) :
    sdistMatch (sdistLine u h extra) = some (u, h) := by
  have e : (sdistLine u h extra).data =
      sdistLit1.data ++ (u.data ++ (sdistLit2.data ++ (h.data ++
        (sdistLit3.data ++ (extra.data ++ [rbraceChar]))))) := rfl
  have e2 : ∀ X : List Char, sdistLit2.data ++ X = '"' :: (", hash = \"sha256:".data ++ X) :=
    fun X => rfl
  have e3 : ∀ X : List Char, sdistLit3.data ++ X = '"' :: (", ".data ++ X) :=
    fun X => rfl
  rw [sdistMatch, e, dropLit_append]
  simp only [e2]
  rw [takeWhile_notQuote u.data hu, dropWhile_notQuote u.data hu, ← e2, dropLit_append]
  simp only [e3]
  rw [takeWhile_notQuote h.data hh, dropWhile_notQuote h.data hh, ← e3, dropLit_append]
  simp [List.any_append, rbraceChar]

theorem sdistMatch_shortSdistLine (u h : String)
    (hu : '"' ∉ u.data) (hh : '"' ∉ h.data) :
    sdistMatch (shortSdistLine u h) = none := by
  have e : (shortSdistLine u h).data =
      sdistLit1.data ++ (u.data ++ (sdistLit2.data ++ (h.data ++
        ('"' :: ' ' :: [rbraceChar])))) := rfl
  have e2 : ∀ X : List Char, sdistLit2.data ++ X = '"' :: (", hash = \"sha256:".data ++ X) :=
    fun X => rfl
  rw [sdistMatch, e, dropLit_append]
  simp only [e2]
  rw [takeWhile_notQuote u.data hu, dropWhile_notQuote u.data hu, ← e2, dropLit_append]
  have hdrop : dropLit sdistLit3.data ('"' :: ' ' :: [rbraceChar]) = none := by decide
  simp only [takeWhile_notQuote h.data hh, dropWhile_notQuote h.data hh, hdrop]

theorem sdistLine_ne_header (u h extra : String) :
    sdistLine u h extra ≠ "[[package]]" := by
  have hx : (sdistLine u h extra).data.head? = some 's' := rfl
  intro heq
  rw [heq] at hx
  exact absurd hx (by decide)

theorem shortSdistLine_ne_header (u h : String) :
    shortSdistLine u h ≠ "[[package]]" := by
  have hx : (shortSdistLine u h).data.head? = some 's' := rfl
  intro heq
  rw [heq] at hx
  exact absurd hx (by decide)

theorem matchesProperty_sdistLine (u h extra : String) :
    matchesProperty (sdistLine u h extra) = true := by
  have e : ∃ X, (sdistLine u h extra).data =
      's' :: 'd' :: 'i' :: 's' :: 't' :: ' ' :: '=' :: ' ' :: X := ⟨_, rfl⟩
  obtain ⟨X, hX⟩ := e
  have kd : keyChar 'd' = true := by decide
  have ki : keyChar 'i' = true := by decide
  have ks : keyChar 's' = true := by decide
  have kt : keyChar 't' = true := by decide
  have ksp : keyChar ' ' = false := by decide
  have ls : lowerAZ 's' = true := by decide
  simp [matchesProperty, hX, propertyTail, eqSpAfter, kd, ki, ks, kt, ksp, ls]

theorem nameMatch_sdistLine (u h extra : String) :
    nameMatch (sdistLine u h extra) = none := by
  have e : ∃ X, (sdistLine u h extra).data = 's' :: X := ⟨_, rfl⟩
  obtain ⟨X, hX⟩ := e
  have e1 : namePrefix = 'n' :: "ame = \"".data := rfl
  have hne : ('s' == 'n') = false := by decide
  simp [nameMatch, hX, e1, dropLit, hne]

/-! ### Behaviour of the walker on the shapes of lines it encounters -/

theorem parse_name_over_props (props : List String) :
    ∀ (r : StdinReader) (v : String) (rest : List String),
    Sees r (props ++ nameLine v :: rest) →
    (∀ l ∈ props, matchesProperty l = true ∧ nameMatch l = none) →
    ∃ r', parse_name r = .ok (underscoreName v, r') ∧ Sees r' rest := by
  induction props with
  | nil =>
    intro r v rest hsees _
    have hsees' : Sees r (nameLine v :: rest) := by simpa using hsees
    have hb := sees_head hsees'
    refine ⟨update_buffer r, ?_, sees_update hsees'⟩
    rw [parse_name, hb]
    simp [matchesProperty_nameLine, nameMatch_nameLine]
  | cons p ps ih =>
    intro r v rest hsees hprops
    have hsees' : Sees r (p :: (ps ++ nameLine v :: rest)) := by simpa using hsees
    have hb := sees_head hsees'
    have hp := hprops p (by simp)
    obtain ⟨r', h1, h2⟩ := ih (update_buffer r) v rest (sees_update hsees')
      (fun l hl => hprops l (by simp [hl]))
    refine ⟨r', ?_, h2⟩
    rw [parse_name, hb]
    simp [hp.1, hp.2, h1]

theorem parse_name_error_at (props : List String) :
    ∀ (r : StdinReader) (w : String) (rest : List String),
    Sees r (props ++ w :: rest) →
    (∀ l ∈ props, matchesProperty l = true ∧ nameMatch l = none) →
    matchesProperty w = false →
    parse_name r = .error (.expectedProperty w) := by
  induction props with
  | nil =>
    intro r w rest hsees _ hw
    have hsees' : Sees r (w :: rest) := by simpa using hsees
    have hb := sees_head hsees'
    rw [parse_name, hb]
    simp [hw]
  | cons p ps ih =>
    intro r w rest hsees hprops hw
    have hsees' : Sees r (p :: (ps ++ w :: rest)) := by simpa using hsees
    have hb := sees_head hsees'
    have hp := hprops p (by simp)
    rw [parse_name, hb]
    simp only [hp.1, hp.2, if_true]
    exact ih (update_buffer r) w rest (sees_update hsees')
      (fun l hl => hprops l (by simp [hl])) hw

theorem parse_sdist_over_mid (mid : List String) :
    ∀ (r : StdinReader) (u h extra : String) (rest : List String),
    Sees r (mid ++ sdistLine u h extra :: rest) →
    (∀ l ∈ mid, l ≠ "[[package]]" ∧ sdistMatch l = none) →
    '"' ∉ u.data → '"' ∉ h.data →
    ∃ r', parse_sdist r = .ok (some (u, h), r') ∧ Sees r' rest := by
  induction mid with
  | nil =>
    intro r u h extra rest hsees _ hu hh
    have hsees' : Sees r (sdistLine u h extra :: rest) := by simpa using hsees
    have hb := sees_head hsees'
    refine ⟨update_buffer r, ?_, sees_update hsees'⟩
    rw [parse_sdist, hb]
    simp [sdistLine_ne_header, sdistMatch_sdistLine u h extra hu hh]
  | cons m ms ih =>
    intro r u h extra rest hsees hmid hu hh
    have hsees' : Sees r (m :: (ms ++ sdistLine u h extra :: rest)) := by
      simpa using hsees
    have hb := sees_head hsees'
    have hm := hmid m (by simp)
    obtain ⟨r', h1, h2⟩ := ih (update_buffer r) u h extra rest (sees_update hsees')
      (fun l hl => hmid l (by simp [hl])) hu hh
    refine ⟨r', ?_, h2⟩
    rw [parse_sdist, hb]
    simp [hm.1, hm.2, h1]

theorem parse_sdist_stop_at_header (mid : List String) :
    ∀ (r : StdinReader) (rest : List String),
    Sees r (mid ++ rest) →
    (∀ l ∈ mid, l ≠ "[[package]]" ∧ sdistMatch l = none) →
    rest.head? = some "[[package]]" →
    ∃ r', parse_sdist r = .ok (none, r') ∧ Sees r' rest := by
  induction mid with
  | nil =>
    intro r rest hsees _ hhead
    rcases rest with _ | ⟨x, rest'⟩
    · simp at hhead
    · simp only [List.head?_cons, Option.some.injEq] at hhead
      subst hhead
      have hsees' : Sees r ("[[package]]" :: rest') := by simpa using hsees
      have hb := sees_head hsees'
      refine ⟨r, ?_, hsees'⟩
      rw [parse_sdist, hb]
      simp
  | cons m ms ih =>
    intro r rest hsees hmid hhead
    have hsees' : Sees r (m :: (ms ++ rest)) := by simpa using hsees
    have hb := sees_head hsees'
    have hm := hmid m (by simp)
    obtain ⟨r', h1, h2⟩ := ih (update_buffer r) rest (sees_update hsees')
      (fun l hl => hmid l (by simp [hl])) hhead
    refine ⟨r', ?_, h2⟩
    rw [parse_sdist, hb]
    simp [hm.1, hm.2, h1]

theorem parse_sdist_eof (mid : List String) :
    ∀ (r : StdinReader),
    Sees r mid →
    (∀ l ∈ mid, l ≠ "[[package]]" ∧ sdistMatch l = none) →
    parse_sdist r = .error .sdistUnexpectedEof := by
  induction mid with
  | nil =>
    intro r hsees _
    have hb := sees_nil_buffer hsees
    rw [parse_sdist, hb]
  | cons m ms ih =>
    intro r hsees hmid
    have hb := sees_head hsees
    have hm := hmid m (by simp)
    rw [parse_sdist, hb]
    simp [hm.1, hm.2]
    exact ih (update_buffer r) (sees_update hsees) (fun l hl => hmid l (by simp [hl]))

theorem skip_rest_over (tail : List String) :
    ∀ (r : StdinReader) (rest : List String),
    Sees r (tail ++ rest) →
    (∀ l ∈ tail, l ≠ "[[package]]") →
    (rest = [] ∨ rest.head? = some "[[package]]") →
    Sees (skip_rest r) rest := by
  induction tail with
  | nil =>
    intro r rest hsees _ hrest
    rcases hrest with hr | hr
    · subst hr
      have hb := sees_nil_buffer (by simpa using hsees)
      rw [skip_rest, hb]
      simpa using hsees
    · rcases rest with _ | ⟨x, rest'⟩
      · simp at hr
      · simp only [List.head?_cons, Option.some.injEq] at hr
        subst hr
        have hsees' : Sees r ("[[package]]" :: rest') := by simpa using hsees
        have hb := sees_head hsees'
        rw [skip_rest, hb]
        simpa using hsees'
  | cons t ts ih =>
    intro r rest hsees htail hrest
    have hsees' : Sees r (t :: (ts ++ rest)) := by simpa using hsees
    have hb := sees_head hsees'
    have ht := htail t (by simp)
    rw [skip_rest, hb]
    simp [ht]
    exact ih (update_buffer r) rest (sees_update hsees')
      (fun l hl => htail l (by simp [hl])) hrest

theorem skip_initial_header (r : StdinReader)
    (hb : r.buffer = some "[[package]]") : skip_initial_fields r = r := by
  have h1 : (isWhitespaceLine "[[package]]" || matchesProperty "[[package]]") = false := by
    decide
  rw [skip_initial_fields, hb]
  simp [h1]

theorem skip_initial_all (input : List String) :
    ∀ (r : StdinReader),
    Sees r input →
    (∀ l ∈ input, (isWhitespaceLine l || matchesProperty l) = true) →
    (skip_initial_fields r).buffer = none := by
  induction input with
  | nil =>
    intro r hsees _
    have hb := sees_nil_buffer hsees
    rw [skip_initial_fields, hb]
    exact hb
  | cons x xs ih =>
    intro r hsees hall
    have hb := sees_head hsees
    have hx := hall x (by simp)
    rw [skip_initial_fields, hb]
    simp [hx]
    exact ih (update_buffer r) (sees_update hsees) (fun l hl => hall l (by simp [hl]))

theorem read_loop_eof (r : StdinReader) (hb : r.buffer = none) :
    read_loop r = .ok [] := by
  rw [read_loop, hb]

theorem join_records_head (gs : List GoodRecord) :
    List.join (gs.map recordLines) = [] ∨
    (List.join (gs.map recordLines)).head? = some "[[package]]" := by
  cases gs with
  | nil => left; rfl
  | cons g gs => right; simp [recordLines]

theorem read_loop_good (gs : List GoodRecord) :
    ∀ (r : StdinReader),
    (∀ g ∈ gs, WFRecord g) →
    Sees r (List.join (gs.map recordLines)) →
    read_loop r = .ok (gs.map blockOf) := by
  induction gs with
  | nil =>
    intro r _ hsees
    exact read_loop_eof r (sees_nil_buffer (by simpa using hsees))
  | cons g gs ih =>
    intro r hwf hsees
    obtain ⟨hprops, hmid, htail, hu, hh⟩ := hwf g (by simp)
    have hsees1 : Sees r ("[[package]]" ::
        (g.props ++ nameLine g.name :: (g.mid ++ sdistLine g.url g.hash g.extra ::
          (g.tail ++ List.join (gs.map recordLines))))) := by
      simpa [recordLines, List.append_assoc, List.cons_append] using hsees
    have hb := sees_head hsees1
    obtain ⟨rA, hA, hAs⟩ := parse_name_over_props g.props (update_buffer r) g.name _
      (sees_update hsees1) hprops
    obtain ⟨rB, hB, hBs⟩ := parse_sdist_over_mid g.mid rA g.url g.hash g.extra _
      hAs hmid hu hh
    have hskip : Sees (skip_rest rB) (List.join (gs.map recordLines)) :=
      skip_rest_over g.tail rB _ hBs htail (join_records_head gs)
    have hd : parse_dependency r = .ok (some (blockOf g), skip_rest rB) := by
      rw [parse_dependency, hb]
      simp only [if_true, eq_self_iff_true]
      rw [parse_dependency_details]
      rw [hA]
      simp [hB, blockOf]
    have hrest : read_loop (skip_rest rB) = .ok (gs.map blockOf) :=
      ih (skip_rest rB) (fun g' hg' => hwf g' (by simp [hg'])) hskip
    rw [read_loop]
    split
    · next heq => rw [hb] at heq; exact absurd heq (by simp)
    · next heq =>
      split
      · next e heq2 => rw [hd] at heq2; exact absurd heq2 (by simp)
      · next out r1 heq2 =>
        rw [hd] at heq2
        cases heq2
        rw [hrest]
        simp

/-! ### Stepping the outer loop -/

theorem read_loop_error (r : StdinReader) (l : String) (e : Err)
    (hb : r.buffer = some l) (hd : parse_dependency r = .error e) :
    read_loop r = .error e := by
  rw [read_loop]
  split
  · next heq => rw [hb] at heq; simp at heq
  · next heq =>
    split
    · next e2 heq2 => rw [hd] at heq2; cases heq2; rfl
    · next out r1 heq2 => rw [hd] at heq2; simp at heq2

theorem read_loop_step_none (r r1 : StdinReader) (l : String) (blocks : List String)
    (hb : r.buffer = some l) (hd : parse_dependency r = .ok (none, r1))
    (hrest : read_loop r1 = .ok blocks) : read_loop r = .ok blocks := by
  rw [read_loop]
  split
  · next heq => rw [hb] at heq; simp at heq
  · next heq =>
    split
    · next e2 heq2 => rw [hd] at heq2; simp at heq2
    · next out r2 heq2 =>
      rw [hd] at heq2
      cases heq2
      rw [hrest]

theorem read_loop_step_some (r r1 : StdinReader) (l b : String) (blocks : List String)
    (hb : r.buffer = some l) (hd : parse_dependency r = .ok (some b, r1))
    (hrest : read_loop r1 = .ok blocks) : read_loop r = .ok (b :: blocks) := by
  rw [read_loop]
  split
  · next heq => rw [hb] at heq; simp at heq
  · next heq =>
    split
    · next e2 heq2 => rw [hd] at heq2; simp at heq2
    · next out r2 heq2 =>
      rw [hd] at heq2
      cases heq2
      rw [hrest]

/-! ### Where the walker leaves the reader after a record -/

theorem parse_sdist_none_buffer (r r' : StdinReader)
    (h : parse_sdist r = .ok (none, r')) : r'.buffer = some "[[package]]" := by
  rw [parse_sdist] at h
  split at h
  · simp at h
  · next line hb =>
    split at h
    · next hhdr =>
      cases h
      rw [hb, hhdr]
    · split at h
      · next uh hm => simp at h
      · exact parse_sdist_none_buffer (update_buffer r) r' h
termination_by r.size
decreasing_by exact update_buffer_size_lt r _ (by assumption)

theorem skip_rest_buffer (r : StdinReader) :
    (skip_rest r).buffer = none ∨ (skip_rest r).buffer = some "[[package]]" := by
  rw [skip_rest]
  split
  · next hb => left; exact hb
  · next line hb =>
    split
    · next hhdr => right; rw [hb, hhdr]
    · exact skip_rest_buffer (update_buffer r)
termination_by r.size
decreasing_by exact update_buffer_size_lt r _ (by assumption)

/-! ### Whitespace lines are not property lines -/

theorem isPySpace_not_lower (c : Char) (h : isPySpace c = true) :
    lowerAZ c = false := by
  have hmem : c ∈ pySpaceChars := by
    simpa [isPySpace] using h
  fin_cases hmem <;> decide

theorem whitespace_not_property (w : String) (hw : isWhitespaceLine w = true) :
    matchesProperty w = false := by
  rcases hd : w.data with _ | ⟨c, cs⟩
  · simp [matchesProperty, hd]
  · have hsp : isPySpace c = true := by
      rw [isWhitespaceLine, hd] at hw
      simpa using (List.all_eq_true.mp hw c (by simp))
    simp [matchesProperty, hd, isPySpace_not_lower c hsp]

/-! ### The Line Source operation model (for the `currentLine` contract) -/

/-- The three public reader operations of §4.1 of the spec. -/
inductive ReaderOp where
  | next
  | peek
  | hasNext
  deriving DecidableEq, Repr

/-- Run a sequence of operations against the reader; `none` models an
`EOFError` escaping from `next()` or `peek()`. -/
def runOps (r : StdinReader) : List ReaderOp → Option StdinReader
  | [] => some r
  | .next :: ops =>
    match r.buffer with
    | none => none
    | some _ => runOps (update_buffer r) ops
  | .peek :: ops =>
    match r.buffer with
    | none => none
    | some _ => runOps r ops
  | .hasNext :: ops => runOps r ops

/-- The number of completed `next()` calls in a run. -/
def countNext (ops : List ReaderOp) : Nat :=
  (ops.filter (fun o => o == ReaderOp.next)).length

theorem update_buffer_line (r : StdinReader) (c : Nat) (l : String)
    (hb : r.buffer = some l) (hc : r.current_line = c + 1) :
    (update_buffer r).current_line =
      (c + 1) + (if (update_buffer r).buffer.isSome then 1 else 0) := by
  rcases r with ⟨stdin, buffer, cl⟩
  cases stdin <;> simp_all [update_buffer]

theorem runOps_line (ops : List ReaderOp) :
    ∀ (r r' : StdinReader) (c : Nat),
    runOps r ops = some r' →
    r.current_line = c + (if r.buffer.isSome then 1 else 0) →
    r'.current_line = (c + countNext ops) + (if r'.buffer.isSome then 1 else 0) := by
  induction ops with
  | nil =>
    intro r r' c h hc
    simp only [runOps, Option.some.injEq] at h
    subst h
    simpa [countNext] using hc
  | cons op ops ih =>
    intro r r' c h hc
    cases op
    case next =>
      rw [runOps] at h
      rcases hb : r.buffer with _ | l
      · rw [hb] at h; simp at h
      · rw [hb] at h
        simp only [] at h
        have hc1 : r.current_line = c + 1 := by simpa [hb] using hc
        have hstep := update_buffer_line r c l hb hc1
        have := ih (update_buffer r) r' (c + 1) h hstep
        have hcnt : countNext (ReaderOp.next :: ops) = countNext ops + 1 := by
          simp [countNext]
        omega
    case peek =>
      rw [runOps] at h
      rcases hb : r.buffer with _ | l
      · rw [hb] at h; simp at h
      · rw [hb] at h
        simp only [] at h
        have := ih r r' c h hc
        have hcnt : countNext (ReaderOp.peek :: ops) = countNext ops := by
          simp [countNext]
        omega
    case hasNext =>
      rw [runOps] at h
      have := ih r r' c h hc
      have hcnt : countNext (ReaderOp.hasNext :: ops) = countNext ops := by
        simp [countNext]
      omega

/-! ### The claims -/

/-- C1: for every input consisting of N well-formed package records (each
with a `name` property and a sha256-form `sdist` property), the program
writes exactly N resource blocks, in input order, each being the exact
template with url and hex substituted verbatim and the name's hyphens
replaced by underscores. -/
theorem claim_C1 (gs : List GoodRecord) (hwf : ∀ g ∈ gs, WFRecord g) :
    read_lockfile (List.join (gs.map recordLines)) = .ok (gs.map blockOf) := by
  cases gs with
  | nil =>
    simp [read_lockfile, initReader, update_buffer, skip_initial_fields, read_loop]
  | cons g gs' =>
    have hsees := sees_init (List.join ((g :: gs').map recordLines))
    have hhead : (List.join ((g :: gs').map recordLines)).head? = some "[[package]]" := by
      simp [recordLines]
    have hb : (initReader (List.join ((g :: gs').map recordLines))).buffer
        = some "[[package]]" := by
      rw [hsees.1, hhead]
    rw [read_lockfile, skip_initial_header _ hb]
    exact read_loop_good (g :: gs') _ hwf hsees

theorem claim_C1_witness :
    (∀ g ∈ [GoodRecord.mk [] "foo-bar" [] "https://x/y.tar.gz" "abc123" "size = 10" []],
      WFRecord g) ∧
    read_lockfile (List.join
        ([GoodRecord.mk [] "foo-bar" [] "https://x/y.tar.gz" "abc123" "size = 10" []].map
          recordLines)) =
      .ok ([GoodRecord.mk [] "foo-bar" [] "https://x/y.tar.gz" "abc123" "size = 10" []].map
        blockOf) :=
  ⟨by decide, claim_C1 _ (by decide)⟩

/-- C6: reaching end of input during the sdist scan (after the name was
extracted, before a sha256-form sdist line or a new `[[package]]` header)
is a fatal failure: the `ValueError` from `parse_sdist` escapes. -/
theorem claim_C6 (props : List String) (v : String) (mid : List String)
    (hprops : ∀ l ∈ props, matchesProperty l = true ∧ nameMatch l = none)
    (hmid : ∀ l ∈ mid, l ≠ "[[package]]" ∧ sdistMatch l = none) :
    read_lockfile ("[[package]]" :: (props ++ nameLine v :: mid)) =
      .error .sdistUnexpectedEof := by
  have hsees := sees_init ("[[package]]" :: (props ++ nameLine v :: mid))
  have hb := sees_head hsees
  obtain ⟨rA, hA, hAs⟩ := parse_name_over_props props
    (update_buffer (initReader ("[[package]]" :: (props ++ nameLine v :: mid)))) v mid
    (sees_update hsees) hprops
  have hsd := parse_sdist_eof mid rA hAs hmid
  have hd : parse_dependency (initReader ("[[package]]" :: (props ++ nameLine v :: mid)))
      = .error .sdistUnexpectedEof := by
    rw [parse_dependency, hb]
    simp only [if_true, eq_self_iff_true]
    rw [parse_dependency_details]
    rw [hA]
    simp [hsd]
  rw [read_lockfile, skip_initial_header _ hb]
  exact read_loop_error _ _ _ hb hd

theorem claim_C6_witness :
    read_lockfile ("[[package]]" :: ([] ++ nameLine "x" :: [])) =
      .error .sdistUnexpectedEof :=
  claim_C6 [] "x" [] (by simp) (by simp)

/-- C7: whenever `parse_dependency_details` returns (with or without a
captured descriptor), the next unconsumed line is a `[[package]]` header or
the input is exhausted. -/
theorem claim_C7 (r r' : StdinReader) (out : Option String)
    (h : parse_dependency_details r = .ok (out, r')) :
    r'.buffer = some "[[package]]" ∨ r'.buffer = none := by
  rw [parse_dependency_details] at h
  split at h
  · simp at h
  · next name r1 hn =>
    split at h
    · simp at h
    · next r2 hs =>
      cases h
      left
      exact parse_sdist_none_buffer r1 _ hs
    · next url hash r2 hs =>
      cases h
      rcases skip_rest_buffer r2 with hx | hx
      · right; exact hx
      · left; exact hx

theorem claim_C7_witness :
    parse_dependency_details ⟨["[[package]]"], some "name = \"a\"", 1⟩ =
      .ok (none, ⟨[], some "[[package]]", 2⟩) ∧
    ((⟨[], some "[[package]]", 2⟩ : StdinReader).buffer = some "[[package]]" ∨
      (⟨[], some "[[package]]", 2⟩ : StdinReader).buffer = none) := by
  have hn : parse_name (⟨["[[package]]"], some "name = \"a\"", 1⟩ : StdinReader)
      = .ok ("a", ⟨[], some "[[package]]", 2⟩) := by
    rw [parse_name]
    simp [update_buffer, (by decide : matchesProperty "name = \"a\"" = true),
      (by decide : nameMatch "name = \"a\"" = some "a"),
      (by decide : underscoreName "a" = "a")]
  have hs : parse_sdist (⟨[], some "[[package]]", 2⟩ : StdinReader)
      = .ok (none, ⟨[], some "[[package]]", 2⟩) := by
    rw [parse_sdist]
    simp
  have hstep : parse_dependency_details ⟨["[[package]]"], some "name = \"a\"", 1⟩ =
      .ok (none, ⟨[], some "[[package]]", 2⟩) := by
    rw [parse_dependency_details]
    rw [hn]
    simp [hs]
  exact ⟨hstep, claim_C7 _ _ _ hstep⟩

/-- C9: a blank or whitespace-only line between the `[[package]]` header and
the `name` property line is a fatal malformed-manifest failure, because the
name scan accepts only lines matching the generic property pattern and a
whitespace line does not match it. -/
theorem claim_C9 (props : List String) (w : String) (rest : List String)
    (hprops : ∀ l ∈ props, matchesProperty l = true ∧ nameMatch l = none)
    (hw : isWhitespaceLine w = true) :
    read_lockfile ("[[package]]" :: (props ++ w :: rest)) =
      .error (.expectedProperty w) := by
  have hsees := sees_init ("[[package]]" :: (props ++ w :: rest))
  have hb := sees_head hsees
  have hname := parse_name_error_at props
    (update_buffer (initReader ("[[package]]" :: (props ++ w :: rest)))) w rest
    (sees_update hsees) hprops (whitespace_not_property w hw)
  have hd : parse_dependency (initReader ("[[package]]" :: (props ++ w :: rest)))
      = .error (.expectedProperty w) := by
    rw [parse_dependency, hb]
    simp only [if_true, eq_self_iff_true]
    rw [parse_dependency_details]
    simp [hname]
  rw [read_lockfile, skip_initial_header _ hb]
  exact read_loop_error _ _ _ hb hd

theorem claim_C9_witness :
    read_lockfile ("[[package]]" :: ([] ++ "" :: [])) =
      .error (.expectedProperty "") :=
  claim_C9 [] "" [] (by simp) (by decide)

/-- C10: an sdist property line whose inline table ends right after the hash
field (no `, ` after the hash's closing quote) does not match
`sdist_property`; in the sdist scan such a line is consumed and ignored and
no descriptor is captured from it. -/
theorem claim_C10 (u h : String) (hu : '"' ∉ u.data) (hh : '"' ∉ h.data) :
    sdistMatch (shortSdistLine u h) = none ∧
    ∀ (r : StdinReader), r.buffer = some (shortSdistLine u h) →
      parse_sdist r = parse_sdist (update_buffer r) := by
  refine ⟨sdistMatch_shortSdistLine u h hu hh, ?_⟩
  intro r hb
  rw [parse_sdist, hb]
  simp [shortSdistLine_ne_header, sdistMatch_shortSdistLine u h hu hh]

theorem claim_C10_witness :
    sdistMatch (shortSdistLine "u" "h") = none ∧
    parse_sdist ⟨["[[package]]"], some (shortSdistLine "u" "h"), 1⟩ =
      parse_sdist (update_buffer ⟨["[[package]]"], some (shortSdistLine "u" "h"), 1⟩) :=
  ⟨(claim_C10 "u" "h" (by decide) (by decide)).1,
   (claim_C10 "u" "h" (by decide) (by decide)).2 _ rfl⟩

/-- C3 (evaluation at the failing inputs): a non-property line inside a
record raises the `parse_name` error, which carries only the offending
line's text — the Python message interpolates the bound method
`reader.line`, not a line number; and a bad header raises the
`parse_dependency` error whose reported number is taken after the offending
line was consumed, here 2 for an offending line at position 1. -/
theorem claim_C3_eval :
    read_lockfile ["[[package]]", "***"] = .error (.expectedProperty "***") ∧
    read_lockfile ["???", "x = 1"] = .error (.expectedHeader "???" 2) := by
  constructor
  · have hd : parse_dependency (initReader ["[[package]]", "***"])
        = .error (.expectedProperty "***") := by
      rw [parse_dependency]
      simp [initReader, update_buffer, parse_dependency_details, parse_name,
        (by decide : matchesProperty "***" = false)]
    rw [read_lockfile, skip_initial_header _ rfl]
    exact read_loop_error _ "[[package]]" _ rfl hd
  · have hd : parse_dependency (initReader ["???", "x = 1"])
        = .error (.expectedHeader "???" 2) := by
      rw [parse_dependency]
      simp [initReader, update_buffer, StdinReader.line,
        (by decide : ¬("???" = "[[package]]"))]
    have hskip : skip_initial_fields (initReader ["???", "x = 1"])
        = initReader ["???", "x = 1"] := by
      rw [skip_initial_fields]
      simp [initReader, update_buffer,
        (by decide : (isWhitespaceLine "???" || matchesProperty "???") = false)]
    rw [read_lockfile, hskip]
    exact read_loop_error _ "???" _ rfl hd

/-- C8 (counterexample): an input with zero `[[package]]` headers whose
only line is neither blank nor a property line makes the walker raise the
bad-header error instead of succeeding with empty output. -/
theorem claim_C8_counterexample :
    read_lockfile ["!!!"] = .error (.expectedHeader "!!!" 1) := by
  have hd : parse_dependency (initReader ["!!!"])
      = .error (.expectedHeader "!!!" 1) := by
    rw [parse_dependency]
    simp [initReader, update_buffer, StdinReader.line,
      (by decide : ¬("!!!" = "[[package]]"))]
  have hskip : skip_initial_fields (initReader ["!!!"]) = initReader ["!!!"] := by
    rw [skip_initial_fields]
    simp [initReader, update_buffer,
      (by decide : (isWhitespaceLine "!!!" || matchesProperty "!!!") = false)]
  rw [read_lockfile, hskip]
  exact read_loop_error _ "!!!" _ rfl hd

/-- C8 (amended): for every input consisting only of blank/whitespace lines
and generic property lines — which therefore contains no `[[package]]`
header — the program writes nothing and terminates successfully. -/
theorem claim_C8 (input : List String)
    (hpre : ∀ l ∈ input, (isWhitespaceLine l || matchesProperty l) = true) :
    read_lockfile input = .ok [] := by
  rw [read_lockfile]
  exact read_loop_eof _ (skip_initial_all input (initReader input) (sees_init input) hpre)

theorem claim_C8_witness :
    (∀ l ∈ ["", "version = 1"], (isWhitespaceLine l || matchesProperty l) = true) ∧
    read_lockfile ["", "version = 1"] = .ok [] :=
  ⟨by decide, claim_C8 _ (by decide)⟩

/-- C4 (counterexample): `line()` does not return the number of completed
`next()` calls — on a one-line input it already returns 1 before any
`next()` call, because the constructor reads the first line into the
buffer. -/
theorem claim_C4_counterexample :
    ¬ (∀ (input : List String) (ops : List ReaderOp) (r' : StdinReader),
        runOps (initReader input) ops = some r' →
        r'.current_line = countNext ops) := by
  intro hclaim
  have h := hclaim ["a"] [] (initReader ["a"]) rfl
  simp [initReader, update_buffer, countNext] at h

/-- C4 (amended): after any successful sequence of reader operations,
`line()` returns the number of completed `next()` calls plus one while a
buffered line remains (equivalently, the number of lines read from the
underlying stream); `peek()` and `hasNext()` never change it. -/
theorem claim_C4 (input : List String) (ops : List ReaderOp) (r' : StdinReader)
    (h : runOps (initReader input) ops = some r') :
    r'.current_line = countNext ops + (if r'.buffer.isSome then 1 else 0) := by
  have h0 : (initReader input).current_line =
      0 + (if (initReader input).buffer.isSome then 1 else 0) := by
    cases input <;> simp [initReader, update_buffer]
  simpa using runOps_line ops (initReader input) r' 0 h h0

theorem claim_C4_witness :
    runOps (initReader ["a", "b"]) [ReaderOp.next, ReaderOp.peek] =
      some ⟨[], some "b", 2⟩ ∧
    (⟨[], some "b", 2⟩ : StdinReader).current_line =
      countNext [ReaderOp.next, ReaderOp.peek] +
        (if (⟨[], some "b", 2⟩ : StdinReader).buffer.isSome then 1 else 0) :=
  ⟨rfl, claim_C4 ["a", "b"] [ReaderOp.next, ReaderOp.peek] _ rfl⟩

/-- C5: a record with a `name` property but no sha256-form sdist line before
the next `[[package]]` header produces zero blocks, does not halt the run,
and the following records are still processed and emitted as usual. -/
theorem claim_C5 (props : List String) (v : String) (mid : List String)
    (g : GoodRecord) (gs : List GoodRecord)
    (hprops : ∀ l ∈ props, matchesProperty l = true ∧ nameMatch l = none)
    (hmid : ∀ l ∈ mid, l ≠ "[[package]]" ∧ sdistMatch l = none)
    (hwf : ∀ g' ∈ g :: gs, WFRecord g') :
    read_lockfile ("[[package]]" :: (props ++ nameLine v ::
        (mid ++ List.join ((g :: gs).map recordLines)))) =
      .ok ((g :: gs).map blockOf) := by
  have hsees := sees_init ("[[package]]" :: (props ++ nameLine v ::
      (mid ++ List.join ((g :: gs).map recordLines))))
  have hb := sees_head hsees
  obtain ⟨rA, hA, hAs⟩ := parse_name_over_props props
    (update_buffer (initReader ("[[package]]" :: (props ++ nameLine v ::
      (mid ++ List.join ((g :: gs).map recordLines)))))) v _
    (sees_update hsees) hprops
  have hhead : (List.join ((g :: gs).map recordLines)).head? = some "[[package]]" := by
    simp [recordLines]
  obtain ⟨rB, hB, hBs⟩ := parse_sdist_stop_at_header mid rA _ hAs hmid hhead
  have hd : parse_dependency (initReader ("[[package]]" :: (props ++ nameLine v ::
      (mid ++ List.join ((g :: gs).map recordLines))))) = .ok (none, rB) := by
    rw [parse_dependency, hb]
    simp only [if_true, eq_self_iff_true]
    rw [parse_dependency_details]
    rw [hA]
    simp [hB]
  have hrest := read_loop_good (g :: gs) rB hwf hBs
  rw [read_lockfile, skip_initial_header _ hb]
  exact read_loop_step_none _ _ _ _ hb hd hrest

theorem claim_C5_witness :
    (∀ g' ∈ [GoodRecord.mk [] "ok-pkg" [] "u2" "h2" "size = 1" []], WFRecord g') ∧
    read_lockfile ("[[package]]" :: ([] ++ nameLine "p" ::
        (["bad = 1"] ++ List.join
          ([GoodRecord.mk [] "ok-pkg" [] "u2" "h2" "size = 1" []].map recordLines)))) =
      .ok ([GoodRecord.mk [] "ok-pkg" [] "u2" "h2" "size = 1" []].map blockOf) :=
  ⟨by decide, claim_C5 [] "p" ["bad = 1"] _ [] (by simp) (by decide) (by decide)⟩

/-- C2: if a record's sha256-form sdist line appears strictly before its
`name` line, the name scan consumes and ignores it (it is a property line
that is not a `name` line), the sdist scan starts only after the name line
and stops at the next header, so no descriptor is captured and no block is
emitted for that record; later records are unaffected. -/
theorem claim_C2 (props1 : List String) (u hsh extra : String) (props2 : List String)
    (v : String) (tail : List String) (g : GoodRecord) (gs : List GoodRecord)
    (hprops1 : ∀ l ∈ props1, matchesProperty l = true ∧ nameMatch l = none)
    (hprops2 : ∀ l ∈ props2, matchesProperty l = true ∧ nameMatch l = none)
    (htail : ∀ l ∈ tail, l ≠ "[[package]]" ∧ sdistMatch l = none)
    (hwf : ∀ g' ∈ g :: gs, WFRecord g') :
    read_lockfile ("[[package]]" :: ((props1 ++ sdistLine u hsh extra :: props2) ++
        nameLine v :: (tail ++ List.join ((g :: gs).map recordLines)))) =
      .ok ((g :: gs).map blockOf) := by
  have hcombined : ∀ l ∈ props1 ++ sdistLine u hsh extra :: props2,
      matchesProperty l = true ∧ nameMatch l = none := by
    intro l hl
    rcases List.mem_append.mp hl with h1 | h2
    · exact hprops1 l h1
    · rcases List.mem_cons.mp h2 with h3 | h4
      · subst h3
        exact ⟨matchesProperty_sdistLine u hsh extra, nameMatch_sdistLine u hsh extra⟩
      · exact hprops2 l h4
  have hsees := sees_init ("[[package]]" :: ((props1 ++ sdistLine u hsh extra :: props2) ++
      nameLine v :: (tail ++ List.join ((g :: gs).map recordLines))))
  have hb := sees_head hsees
  obtain ⟨rA, hA, hAs⟩ := parse_name_over_props (props1 ++ sdistLine u hsh extra :: props2)
    (update_buffer (initReader ("[[package]]" ::
      ((props1 ++ sdistLine u hsh extra :: props2) ++
        nameLine v :: (tail ++ List.join ((g :: gs).map recordLines)))))) v _
    (sees_update hsees) hcombined
  have hhead : (List.join ((g :: gs).map recordLines)).head? = some "[[package]]" := by
    simp [recordLines]
  obtain ⟨rB, hB, hBs⟩ := parse_sdist_stop_at_header tail rA _ hAs htail hhead
  have hd : parse_dependency (initReader ("[[package]]" ::
      ((props1 ++ sdistLine u hsh extra :: props2) ++
        nameLine v :: (tail ++ List.join ((g :: gs).map recordLines))))) = .ok (none, rB) := by
    rw [parse_dependency, hb]
    simp only [if_true, eq_self_iff_true]
    rw [parse_dependency_details]
    rw [hA]
    simp [hB]
  have hrest := read_loop_good (g :: gs) rB hwf hBs
  rw [read_lockfile, skip_initial_header _ hb]
  exact read_loop_step_none _ _ _ _ hb hd hrest

theorem claim_C2_witness :
    (∀ g' ∈ [GoodRecord.mk [] "after-pkg" [] "u3" "h3" "size = 2" []], WFRecord g') ∧
    read_lockfile ("[[package]]" :: (([] ++ sdistLine "u0" "h0" "size = 0" :: []) ++
        nameLine "early-sdist" :: ([] ++ List.join
          ([GoodRecord.mk [] "after-pkg" [] "u3" "h3" "size = 2" []].map recordLines)))) =
      .ok ([GoodRecord.mk [] "after-pkg" [] "u3" "h3" "size = 2" []].map blockOf) :=
  ⟨by decide,
   claim_C2 [] "u0" "h0" "size = 0" [] "early-sdist" [] _ []
     (by simp) (by simp) (by simp) (by decide)⟩
